import Mathlib

/-!
Verification development for the zessionizer project/session switcher.

The definitions below are a shallow embedding of the program's storage
engine (`src/storage/json.rs`, `src/storage/models.rs`,
`src/storage/frecency.rs`, `src/domain/error.rs`) and of its application
state machine (`src/app/state.rs`, `src/app/handler.rs`, `src/app/modes.rs`,
`src/app/actions.rs`, `src/worker/messages.rs`).

Modelling conventions:
- Rust `HashMap<String, ProjectRecord>` is modelled as an association list
  `List (String × ProjectRecord)`; iteration order of the Rust map is
  unspecified, the list fixes one order.  No verified property below
  depends on that order.
- Machine integers (`i64`, `i32` timestamps and counters) are modelled as
  `Int`; the one place the code saturates (`i32::saturating_add(1)`) is
  modelled explicitly against the `i32` maximum.
- Disk state is modelled explicitly: the committed snapshot, a temp-file
  slot, and a count of physical writes, so that commit/crash behaviour is
  expressible.
- Fallible operations return the error value next to the (unchanged or
  updated) state.
- Tracing/log statements have no observable effect and are omitted.
-/

namespace Zessionizer

/-- Error enum from `src/domain/error.rs` (`ZessionizerError`).  The `Io`
variant wraps `std::io::Error`; its payload is modelled as the error
message string. -/
inductive ZessionizerError where
  | Storage (msg : String)
  | IoError (msg : String)
  | Theme (msg : String)
  | Worker (msg : String)
  | Config (msg : String)
deriving DecidableEq, Repr

/-- Storage-layer project record from `src/storage/models.rs`
(`ProjectRecord`). -/
structure ProjectRecord where
  path : String
  name : String
  last_accessed : Option Int
  access_count : Int
  created_at : Int
  layout : Option String
deriving DecidableEq, Repr

/-- Session record from `src/storage/models.rs` (`SessionRecord`). -/
structure SessionRecord where
  name : String
  project_path : String
deriving DecidableEq, Repr

/-- Top-level persisted container from `src/storage/json.rs`
(`StorageData`).  The Rust `HashMap` of projects is modelled as an
association list keyed by path. -/
structure StorageData where
  version : Nat
  projects : List (String × ProjectRecord)
  sessions : List SessionRecord
deriving DecidableEq, Repr

/-- `StorageData::default()`: version 1, empty projects and sessions. -/
def StorageData.default : StorageData :=
  { version := 1, projects := [], sessions := [] }

/-- Key lookup in the projects map (`HashMap::get` / `get_mut`). -/
def lookupProject : List (String × ProjectRecord) → String → Option ProjectRecord
  | [], _ => none
  | (k, v) :: rest, key => if k = key then some v else lookupProject rest key

/-- In-place value replacement at a key (the effect of mutating through
`HashMap::get_mut`); leaves every other entry and the key set unchanged. -/
def updateProject : List (String × ProjectRecord) → String → ProjectRecord → List (String × ProjectRecord)
  | [], _, _ => []
  | (k, v) :: rest, key, r =>
      if k = key then (k, r) :: rest else (k, v) :: updateProject rest key r

/-- Position of a key among the map's keys
(`self.data.projects.keys().position(|k| k == &project.path).unwrap_or(0)`). -/
def keyPosition : List (String × ProjectRecord) → String → Nat
  | [], _ => 0
  | (k, _) :: rest, key => if k = key then 0 else keyPosition rest key + 1

/-- First stored project whose `name` field equals the given name
(`self.data.projects.values().find(|p| p.name == *session_name)`). -/
def findProjectByName : List (String × ProjectRecord) → String → Option ProjectRecord
  | [], _ => none
  | (_, v) :: rest, n => if v.name = n then some v else findProjectByName rest n

/-- `JsonStorage` from `src/storage/json.rs`, together with an explicit
model of the disk: `disk` is the committed snapshot readable at the target
path (decoded form; serialization is injective) and `writes` counts
physical write-then-rename commits performed. -/
structure JsonStorage where
  data : StorageData
  dirty : Bool
  disk : Option StorageData
  writes : Nat
deriving DecidableEq, Repr

/-- `JsonStorage::save_to_file`: skipped entirely when not dirty;
otherwise serializes the whole dataset, writes a temp file, renames it
over the target, and clears the dirty flag.  At this level of the model a
successful commit replaces the committed snapshot atomically and counts
one physical write. -/
def saveToFile (s : JsonStorage) : JsonStorage :=
  if s.dirty then
    { s with disk := some s.data, dirty := false, writes := s.writes + 1 }
  else s

/-- `i32::saturating_add(1)` on an access counter. -/
def i32SaturatingAddOne (n : Int) : Int :=
  min (n + 1) 2147483647

/-- The field overwrite performed by `JsonStorage::add_project` on an
existing record: name, last_accessed and access_count are replaced
outright. -/
def overwriteExisting (existing incoming : ProjectRecord) : ProjectRecord :=
  { existing with
    name := incoming.name
    last_accessed := incoming.last_accessed
    access_count := incoming.access_count }

/-- `JsonStorage::add_project` (`src/storage/json.rs`): upsert by path.
On an existing path the stored record's name, last_accessed and
access_count are overwritten and the returned id is the key position + 1;
on a new path the record is inserted and the id is the previous project
count + 1 (`next_project_id`).  Either way the dirty flag is set and a
save is attempted immediately. -/
def addProject (s : JsonStorage) (project : ProjectRecord) : JsonStorage × Int :=
  match lookupProject s.data.projects project.path with
  | some existing =>
      let projects := updateProject s.data.projects project.path (overwriteExisting existing project)
      let id : Int := (keyPosition s.data.projects project.path : Int) + 1
      (saveToFile { s with data := { s.data with projects := projects }, dirty := true }, id)
  | none =>
      let id : Int := (s.data.projects.length : Int) + 1
      let projects := s.data.projects ++ [(project.path, project)]
      (saveToFile { s with data := { s.data with projects := projects }, dirty := true }, id)

/-- The merge performed by `JsonStorage::add_projects_batch` on an
existing record: name and last_accessed are overwritten, access_count
becomes the max of existing and incoming. -/
def mergeBatchExisting (existing incoming : ProjectRecord) : ProjectRecord :=
  { existing with
    name := incoming.name
    last_accessed := incoming.last_accessed
    access_count := max existing.access_count incoming.access_count }

/-- One iteration of the `for project in projects` loop in
`JsonStorage::add_projects_batch`: state is the projects map paired with
the `added` output vector. -/
def addBatchStep (st : List (String × ProjectRecord) × List ProjectRecord)
    (project : ProjectRecord) : List (String × ProjectRecord) × List ProjectRecord :=
  match lookupProject st.1 project.path with
  | some existing =>
      let merged := mergeBatchExisting existing project
      (updateProject st.1 project.path merged, st.2 ++ [merged])
  | none =>
      (st.1 ++ [(project.path, project)], st.2 ++ [project])

/-- `JsonStorage::add_projects_batch` (`src/storage/json.rs`): folds the
loop body over the input, then sets the dirty flag and attempts a save.
Returns the updated storage and the `added` vector of resulting stored
records. -/
def addProjectsBatch (s : JsonStorage) (projects : List ProjectRecord) :
    JsonStorage × List ProjectRecord :=
  let res := projects.foldl addBatchStep (s.data.projects, [])
  (saveToFile { s with data := { s.data with projects := res.1 }, dirty := true }, res.2)

/-- `JsonStorage::update_project_access` (`src/storage/json.rs`): on an
unknown path it returns the `Storage("project not found: …")` error before
touching anything; on a known path it sets `last_accessed`, increments
`access_count` saturating, sets the dirty flag and attempts a save. -/
def updateProjectAccess (s : JsonStorage) (path : String) (timestamp : Int) :
    JsonStorage × Except ZessionizerError Unit :=
  match lookupProject s.data.projects path with
  | none => (s, .error (.Storage ("project not found: " ++ path)))
  | some project =>
      let updated := { project with
        last_accessed := some timestamp
        access_count := i32SaturatingAddOne project.access_count }
      (saveToFile { s with
          data := { s.data with projects := updateProject s.data.projects path updated }
          dirty := true },
        .ok ())

/-- `JsonStorage::sync_sessions` (`src/storage/json.rs`): clears the
stored sessions and rebuilds them from the active list, pairing each
active name with the first project whose `name` matches; names matching no
project are dropped.  Sets the dirty flag and attempts a save. -/
def syncSessions (s : JsonStorage) (active_session_names : List String) : JsonStorage :=
  let sessions := active_session_names.foldl (fun acc session_name =>
    match findProjectByName s.data.projects session_name with
    | some project => acc ++ [{ name := session_name, project_path := project.path : SessionRecord }]
    | none => acc) []
  saveToFile { s with data := { s.data with sessions := sessions }, dirty := true }

/-! ### Step-level model of the atomic commit

`save_to_file` performs exactly two filesystem effects when dirty: write
the serialized dataset to the sibling temp path, then rename the temp
file over the target path.  To reason about crashes at intermediate
points, those two effects are modelled as individual steps on a
filesystem state holding the target file and the temp file. -/

/-- Contents of the target path and of the sibling temp path. -/
structure FsState where
  target : Option String
  temp : Option String
deriving DecidableEq, Repr

/-- The two filesystem effects of a dirty `save_to_file`, in order. -/
inductive SaveStep where
  | writeTemp
  | rename
deriving DecidableEq, Repr

/-- Effect of one step: `writeTemp` stores the serialized dataset at the
temp path; `rename` atomically moves the temp file over the target. -/
def applySaveStep (json : String) : FsState → SaveStep → FsState
  | fs, .writeTemp => { fs with temp := some json }
  | fs, .rename => { target := fs.temp, temp := none }

/-- The step sequence `save_to_file` performs: nothing when not dirty,
otherwise write-temp followed by rename. -/
def saveSteps (dirty : Bool) : List SaveStep :=
  if dirty then [.writeTemp, .rename] else []

/-- Runs a list of save steps over a filesystem state. -/
def runSaveSteps (json : String) (fs : FsState) (steps : List SaveStep) : FsState :=
  steps.foldl (applySaveStep json) fs

/-! ### Frecency scoring (`src/storage/frecency.rs`)

The Rust code computes over `f64`; the embedding uses exact reals, which
is the intended semantics of the formula
`access_count * exp(-age_hours / 168)`. -/

/-- `calculate_score` from `src/storage/frecency.rs`: the access count
times an exponential-decay recency multiplier; a record never accessed
gets multiplier 1.  `HALF_LIFE_HOURS = 168`, `SECONDS_PER_HOUR = 3600`,
and the age is clamped below at 0. -/
noncomputable def calculateScore (project : ProjectRecord) (now : Int) : ℝ :=
  let access_count : ℝ := (project.access_count : ℝ)
  let recency_multiplier : ℝ :=
    match project.last_accessed with
    | none => 1
    | some last_accessed =>
        let age_seconds : ℝ := ((max (now - last_accessed) 0 : Int) : ℝ)
        let age_hours : ℝ := age_seconds / 3600
        Real.exp (-age_hours / 168)
  access_count * recency_multiplier

/-! ### Application layer types (`src/app/modes.rs`, `src/domain/project.rs`,
`src/worker/messages.rs`, `src/app/actions.rs`) -/

/-- `SearchFocus` from `src/app/modes.rs`. -/
inductive SearchFocus where
  | Typing
  | Navigating
deriving DecidableEq, Repr

/-- `InputMode` from `src/app/modes.rs`. -/
inductive InputMode where
  | Normal
  | Search (focus : SearchFocus)
deriving DecidableEq, Repr

/-- `ViewMode` from `src/app/modes.rs`. -/
inductive ViewMode where
  | Sessions
  | ProjectsWithoutSessions
deriving DecidableEq, Repr

/-- Domain `Project` from `src/domain/project.rs`. -/
structure Project where
  id : Option Int
  path : String
  name : String
  last_accessed : Int
  created_at : Int
  layout : Option String
deriving DecidableEq, Repr

/-- `WorkerMessage` from `src/worker/messages.rs`.  The optional
`trace_context` on every variant is pass-through observability metadata
with no effect on processing and is omitted.  The `SyncSessions` payload
is a `Vec<String>` collected from a `HashSet` in unspecified order; it is
modelled as the set itself. -/
inductive WorkerMessage where
  | LoadProjects (with_sessions : Bool)
  | UpdateFrecency (path : String)
  | AddProjectsBatch (projects : List (String × String))
  | SyncSessions (active_sessions : Finset String)
  | UpdateProjectLayout (path : String) (layout : Option String)
deriving DecidableEq

/-- `WorkerResponse` from `src/worker/messages.rs`. -/
inductive WorkerResponse where
  | ProjectsLoaded (projects : List Project)
  | FrecencyUpdated (path : String)
  | ProjectsBatchAdded (count : Nat) (projects : List Project)
  | SessionsSynced (count : Nat)
  | Error (message : String)
  | LayoutUpdated (path : String)
deriving DecidableEq, Repr

/-- `Action` from `src/app/actions.rs`.  `PathBuf` fields are modelled as
the path strings they are built from. -/
inductive Action where
  | CloseFocus
  | PostToWorker (msg : WorkerMessage)
  | SwitchSession (name : String) (path : String) (layout : Option String)
  | CreateSession (name : String) (path : String) (layout : Option String)
  | KillSession (name : String)
  | UpdateProjectLayout (path : String) (layout : Option String)
deriving DecidableEq

/-- `AppState` from `src/app/state.rs`.  The `theme` field only feeds
rendering colors and is omitted; `active_sessions` (a Rust `HashSet`) is
a `Finset`. -/
structure AppState where
  projects : List Project
  filtered_projects : List Project
  selected_index : Nat
  input_mode : InputMode
  search_query : String
  view_mode : ViewMode
  active_sessions : Finset String
  current_session : Option String
deriving DecidableEq

/-- `AppState::new`: empty filtered list, selection 0, Normal input mode,
empty query, Sessions view, no active or current session. -/
def initialState (projects : List Project) : AppState :=
  { projects := projects
    filtered_projects := []
    selected_index := 0
    input_mode := .Normal
    search_query := ""
    view_mode := .Sessions
    active_sessions := ∅
    current_session := none }

/-- `AppState::move_selection_down`: wraps to the top; a no-op on an
empty filtered list. -/
def moveSelectionDown (st : AppState) : AppState :=
  if st.filtered_projects.isEmpty then st
  else { st with selected_index := (st.selected_index + 1) % st.filtered_projects.length }

/-- `AppState::move_selection_up`: wraps to the bottom; a no-op on an
empty filtered list. -/
def moveSelectionUp (st : AppState) : AppState :=
  if st.filtered_projects.isEmpty then st
  else if st.selected_index = 0 then
    { st with selected_index := st.filtered_projects.length - 1 }
  else { st with selected_index := st.selected_index - 1 }

/-- `AppState::selected_project`: `filtered_projects[selected_index]`. -/
def selectedProject (st : AppState) : Option Project :=
  st.filtered_projects.get? st.selected_index

/-- The view-mode gate of `AppState::apply_search_filter`: Sessions view
keeps projects whose name is an active session, the other view keeps the
complement. -/
def passesViewMode (view_mode : ViewMode) (active_sessions : Finset String) (p : Project) : Bool :=
  match view_mode with
  | .Sessions => decide (p.name ∈ active_sessions)
  | .ProjectsWithoutSessions => decide (p.name ∉ active_sessions)

/-- `AppState::apply_search_filter` (`src/app/state.rs`), parametrized by
the fuzzy matcher: `fm name token` models
`SkimMatcherV2::fuzzy_match(name, token).is_some()`, an external crate.
The query is split on whitespace into lowercased tokens; a project must
pass the view-mode gate and every token must fuzzy-match its lowercased
name.  Afterwards the selection is clamped to
`min(old_index, new_len - 1)`, or reset to 0 when empty. -/
def applySearchFilter (fm : String → String → Bool) (st : AppState) : AppState :=
  let tokens : List String :=
    if st.search_query.isEmpty then []
    else ((st.search_query.split Char.isWhitespace).filter (fun t => !t.isEmpty)).map String.toLower
  let filtered := st.projects.filter (fun p =>
    passesViewMode st.view_mode st.active_sessions p &&
      (tokens.isEmpty || tokens.all (fun token => fm p.name.toLower token)))
  let selected := if filtered.isEmpty then 0 else min st.selected_index (filtered.length - 1)
  { st with filtered_projects := filtered, selected_index := selected }

/-! ### View windowing (`src/app/state.rs`, `compute_viewmodel` and
`calculate_available_rows`)

The view-model embedding covers the windowing computation; textual
formatting of names and paths (`compute_display_item`'s truncation) and
highlight ranges feed only rendering and are not modelled. -/

/-- `AppState::calculate_available_rows`: total rows minus fixed chrome,
6 in Normal mode and 9 in Search mode (saturating). -/
def calculateAvailableRows (input_mode : InputMode) (total_rows : Nat) : Nat :=
  match input_mode with
  | .Normal => total_rows - 6
  | .Search _ => total_rows - 9

/-- The window bounds computed inside `AppState::compute_viewmodel`:
center on the selection (`visible_start = selected - rows/2`, saturating),
clamp `visible_end` to the list length, and when the window came out
short while the list is long enough, shift `visible_start` back to
`visible_end - available_rows`. -/
def computeWindow (available_rows selected_index len : Nat) : Nat × Nat :=
  let visible_start := selected_index - available_rows / 2
  let visible_end := min (visible_start + available_rows) len
  let actual_count := visible_end - visible_start
  if actual_count < available_rows ∧ available_rows ≤ len then
    (visible_end - available_rows, visible_end)
  else
    (visible_start, visible_end)

/-- One row of the view model: the windowed project with its selection
and current-session flags (`DisplayItem` without the textual fields). -/
structure DisplayItem where
  project : Project
  is_selected : Bool
  is_current_session : Bool
deriving DecidableEq

/-- The windowing skeleton of `UIViewModel`. -/
structure UIViewModel where
  display_items : List DisplayItem
  selected_index : Nat
deriving DecidableEq

/-- `AppState::compute_viewmodel` (windowing part): early-outs to an
empty view model when there are no projects or no filtered projects;
otherwise slices `filtered_projects` to the computed window and reports
the selection relative to the window start. -/
def computeViewmodel (st : AppState) (rows : Nat) : UIViewModel :=
  if st.projects.isEmpty || st.filtered_projects.isEmpty then
    { display_items := [], selected_index := 0 }
  else
    let available_rows := calculateAvailableRows st.input_mode rows
    let w := computeWindow available_rows st.selected_index st.filtered_projects.length
    let display_items :=
      (((st.filtered_projects.drop w.1).take (w.2 - w.1)).enum).map (fun e =>
        { project := e.2
          is_selected := decide (w.1 + e.1 = st.selected_index)
          is_current_session := decide (st.current_session = some e.2.name) : DisplayItem })
    { display_items := display_items, selected_index := st.selected_index - w.1 }

/-! ### Event handler (`src/app/handler.rs`) -/

/-- `Event` from `src/app/handler.rs`.  `Char(char)` is rendered as
`CharKey` because `Char` would shadow the character type; the
`SessionUpdate` payload mirrors the Rust `HashSet<String>` as a `Finset`;
`PermissionsResult`'s granted-permissions payload is ignored by the
handler and omitted. -/
inductive Event where
  | KeyDown
  | KeyUp
  | CloseFocus
  | SelectProject
  | KillSession
  | SearchMode
  | FocusSearchBar
  | FocusResults
  | ExitSearch
  | CharKey (c : Char)
  | Backspace
  | Escape
  | ShowProjects
  | ShowSessions
  | SessionUpdate (active_sessions : Finset String) (current_session : Option String)
  | ProjectsScanned (git_directories : List String)
  | ScanFailed (error : String)
  | PermissionsResult
  | WorkerResponseEvt (response : WorkerResponse)
  | UpdateProjectLayout (path : String) (layout : Option String)

/-- Per-marker-path normalization in the `ProjectsScanned` arm of
`handle_event`: strip a `/host` sandbox prefix (remembering that it was
stripped), strip a `/.git` or `/.zessionizer` marker suffix, re-root
sandbox paths that became relative, and derive the project name as the
final path segment; an entry whose derived name is the fallback
`"unknown"` is dropped. -/
def normalizeMarkerPath (marker_path : String) : Option (String × String) :=
  let stripped :=
    if marker_path.startsWith "/host" then (marker_path.drop 5, true)
    else (marker_path, false)
  let without_host := stripped.1
  let is_sandbox_path := stripped.2
  let project_path :=
    if without_host.endsWith "/.git" then without_host.dropRight 5
    else if without_host.endsWith "/.zessionizer" then without_host.dropRight 13
    else without_host
  let normalized_path :=
    if project_path.startsWith "~/" then project_path
    else if project_path.startsWith "/" then project_path
    else if is_sandbox_path then "/" ++ project_path
    else project_path
  let project_name := (normalized_path.splitOn "/").getLastD "unknown"
  if project_name ≠ "unknown" then some (normalized_path, project_name) else none

/-- The `(path, name)` pairs extracted from a scan result
(the `filter_map` over `git_directories`). -/
def scannedProjects (git_directories : List String) : List (String × String) :=
  git_directories.filterMap normalizeMarkerPath

/-- The deduplication loop over scanned projects: a fold of
`unique_projects.entry(name).or_insert_with(|| (path, name))` — an entry
is kept only if no earlier entry had the same name.  (The Rust code then
collects the map values in unspecified order; the fold keeps them in
input order, which no claim depends on.) -/
def dedupFirstByName (projects : List (String × String)) : List (String × String) :=
  projects.foldl (fun acc e =>
    if acc.any (fun e2 => e2.2 == e.2) then acc else acc ++ [e]) []

/-- `handle_event` from `src/app/handler.rs`, parametrized by the fuzzy
matcher `fm` used by `apply_search_filter`.  The Rust function returns
`Result<(bool, Vec<Action>)>` but no arm ever produces an error, so the
embedding returns the new state with the render flag and action list
directly. -/
def handleEvent (fm : String → String → Bool) (st : AppState) (event : Event) :
    AppState × Bool × List Action :=
  match event with
  | .KeyDown => (moveSelectionDown st, true, [])
  | .KeyUp => (moveSelectionUp st, true, [])
  | .CloseFocus => (st, false, [.CloseFocus])
  | .SelectProject =>
      match selectedProject st with
      | none =>
          match st.input_mode with
          | .Search _ =>
              (applySearchFilter fm { st with input_mode := .Normal, search_query := "" }, true, [])
          | .Normal => (st, false, [])
      | some project =>
          if project.name ∈ st.active_sessions then
            (st, false, [.SwitchSession project.name project.path project.layout])
          else
            (st, false, [.CreateSession project.name project.path project.layout])
  | .SearchMode =>
      ({ st with input_mode := .Search .Typing, search_query := "" }, true, [])
  | .FocusSearchBar =>
      ({ st with input_mode := .Search .Typing }, true, [])
  | .FocusResults =>
      if st.search_query.isEmpty then
        (applySearchFilter fm { st with input_mode := .Normal }, true, [])
      else
        ({ st with input_mode := .Search .Navigating }, true, [])
  | .ExitSearch =>
      (applySearchFilter fm { st with input_mode := .Normal, search_query := "" }, true, [])
  | .CharKey c =>
      match st.input_mode with
      | .Normal => (st, false, [])
      | .Search _ =>
          (applySearchFilter fm { st with search_query := st.search_query.push c }, true, [])
  | .Backspace =>
      match st.input_mode with
      | .Normal => (st, false, [])
      | .Search _ =>
          (applySearchFilter fm { st with search_query := st.search_query.dropRight 1 }, true, [])
  | .Escape =>
      (applySearchFilter fm { st with input_mode := .Normal, search_query := "" }, true, [])
  | .ShowProjects =>
      (applySearchFilter fm { st with view_mode := .ProjectsWithoutSessions }, true, [])
  | .ShowSessions =>
      (applySearchFilter fm { st with view_mode := .Sessions }, true, [])
  | .KillSession =>
      if st.view_mode ≠ .Sessions then (st, false, [])
      else
        match selectedProject st with
        | none => (st, false, [])
        | some project => (st, false, [.KillSession project.name])
  | .SessionUpdate active_sessions current_session =>
      let added_count := (active_sessions \ st.active_sessions).card
      let removed_count := (st.active_sessions \ active_sessions).card
      let current_changed := st.current_session ≠ current_session
      if 0 < added_count ∨ 0 < removed_count ∨ current_changed then
        let st1 := applySearchFilter fm
          { st with active_sessions := active_sessions, current_session := current_session }
        (st1, true, [.PostToWorker (.SyncSessions active_sessions)])
      else
        (st, false, [])
  | .ProjectsScanned git_directories =>
      let projects := scannedProjects git_directories
      if projects.isEmpty then (st, false, [])
      else
        (st, false, [.PostToWorker (.AddProjectsBatch (dedupFirstByName projects))])
  | .ScanFailed _ => (st, false, [])
  | .PermissionsResult => (st, false, [])
  | .WorkerResponseEvt response =>
      match response with
      | .ProjectsLoaded projects =>
          if st.projects = projects then (st, false, [])
          else
            let old_filtered := st.filtered_projects
            let st1 := applySearchFilter fm { st with projects := projects }
            if st1.filtered_projects = old_filtered then (st1, false, [])
            else (st1, true, [])
      | .FrecencyUpdated _ => (st, false, [])
      | .SessionsSynced _ => (st, false, [])
      | .ProjectsBatchAdded _ projects =>
          if st.projects = projects then (st, false, [])
          else
            let old_filtered := st.filtered_projects
            let st1 := applySearchFilter fm { st with projects := projects }
            if st1.filtered_projects = old_filtered then (st1, false, [])
            else (st1, true, [])
      | .LayoutUpdated _ => (st, false, [.PostToWorker (.LoadProjects false)])
      | .Error _ => (st, true, [])
  | .UpdateProjectLayout path layout =>
      (st, false, [.UpdateProjectLayout path layout])

/-- The selection-bounds invariant on `AppState`
(`0 ≤ selected_index < filtered_projects.len()` when non-empty,
`selected_index = 0` when empty). -/
def selectionInvariant (st : AppState) : Prop :=
  if st.filtered_projects.length = 0 then st.selected_index = 0
  else st.selected_index < st.filtered_projects.length

/-! ### Specification-side definition for the batch merge (claim C3)

`batchSpec` is written from the spec's words: "for each record, if path
exists, merge fields (name and last_accessed overwritten,
access_count = max(existing, incoming)); else insert as new.  Returns the
resulting stored records (post-merge), not the raw input." -/

/-- The spec's merge rule for an existing record. -/
def specMergeRecord (existing incoming : ProjectRecord) : ProjectRecord :=
  { existing with
    name := incoming.name
    last_accessed := incoming.last_accessed
    access_count := max existing.access_count incoming.access_count }

/-- The spec's description of batch processing, as a structural recursion
over the input records: returns the final map and the list of resulting
stored (post-merge) records in input order. -/
def batchSpec : List (String × ProjectRecord) → List ProjectRecord →
    List (String × ProjectRecord) × List ProjectRecord
  | m, [] => (m, [])
  | m, p :: ps =>
      match lookupProject m p.path with
      | some existing =>
          let merged := specMergeRecord existing p
          let rest := batchSpec (updateProject m p.path merged) ps
          (rest.1, merged :: rest.2)
      | none =>
          let rest := batchSpec (m ++ [(p.path, p)]) ps
          (rest.1, p :: rest.2)

/-! ### Helper lemmas about the projects map -/

/-- Updating a present key makes lookup at that key return the new record. -/
lemma lookupProject_updateProject_self (l : List (String × ProjectRecord)) (k : String)
    (r ex : ProjectRecord) (h : lookupProject l k = some ex) :
    lookupProject (updateProject l k r) k = some r := by
  induction l with
  | nil => simp [lookupProject] at h
  | cons hd tl ih =>
      obtain ⟨k0, v0⟩ := hd
      by_cases hk : k0 = k
      · simp [lookupProject, updateProject, hk]
      · simp only [lookupProject, updateProject, if_neg hk] at h ⊢
        exact ih h

/-- `updateProject` never changes the key set. -/
lemma updateProject_keys (l : List (String × ProjectRecord)) (k : String) (r : ProjectRecord) :
    (updateProject l k r).map Prod.fst = l.map Prod.fst := by
  induction l with
  | nil => rfl
  | cons hd tl ih =>
      obtain ⟨k0, v0⟩ := hd
      by_cases hk : k0 = k
      · simp [updateProject, hk]
      · simp [updateProject, hk, ih]

/-- The batch loop's fold agrees with the spec's recursion, for any
accumulated output. -/
lemma foldl_addBatchStep_eq_batchSpec (ps : List ProjectRecord) :
    ∀ (m : List (String × ProjectRecord)) (acc : List ProjectRecord),
      ps.foldl addBatchStep (m, acc) = ((batchSpec m ps).1, acc ++ (batchSpec m ps).2) := by
  induction ps with
  | nil => intro m acc; simp [batchSpec]
  | cons p ps ih =>
      intro m acc
      cases h : lookupProject m p.path with
      | some existing =>
          simp only [List.foldl_cons, addBatchStep, h, batchSpec, ih, List.append_assoc,
            List.singleton_append, mergeBatchExisting, specMergeRecord]
      | none =>
          simp only [List.foldl_cons, addBatchStep, h, batchSpec, ih, List.append_assoc,
            List.singleton_append]

/-! ### Claim theorems: storage layer -/

/-- C1: the commit procedure writes the serialized dataset only to the
sibling temp path and then renames it over the target; after any prefix
of the commit's step sequence (for either value of the dirty flag) the
target file holds either the prior complete snapshot or the new complete
snapshot, and in particular a crash after the temp write but before the
rename leaves the original target content fully intact. -/
theorem atomic_commit_snapshots (old : Option String) (json : String) (dirty : Bool) (n : Nat) :
    ((runSaveSteps json ⟨old, none⟩ ((saveSteps dirty).take n)).target = old ∨
      (runSaveSteps json ⟨old, none⟩ ((saveSteps dirty).take n)).target = some json) ∧
    runSaveSteps json ⟨old, none⟩ ((saveSteps true).take 1) = ⟨old, some json⟩ := by
  constructor
  · cases dirty with
    | false => simp [saveSteps, runSaveSteps]
    | true =>
        match n with
        | 0 => simp [saveSteps, runSaveSteps]
        | 1 => simp [saveSteps, runSaveSteps, applySaveStep]
        | (n + 2) => simp [saveSteps, runSaveSteps, applySaveStep, List.take_succ_cons]
  · simp [saveSteps, runSaveSteps, applySaveStep]

/-- C3: `add_projects_batch` processes the records in order exactly as
the spec's merge rule describes — existing paths get name and
last_accessed overwritten and access_count maxed, new paths are inserted
— and the returned list is the list of resulting stored (post-merge)
records, not the raw inputs. -/
theorem add_projects_batch_follows_spec (s : JsonStorage) (ps : List ProjectRecord) :
    (addProjectsBatch s ps).1.data.projects = (batchSpec s.data.projects ps).1 ∧
    (addProjectsBatch s ps).2 = (batchSpec s.data.projects ps).2 := by
  have h := foldl_addBatchStep_eq_batchSpec ps s.data.projects []
  simp [addProjectsBatch, h, saveToFile]

/-- C6: `update_project_access` on an absent path returns the
`Storage("project not found: …")` error with the storage state — data,
dirty flag, committed snapshot and write count — completely unchanged;
on a present path it succeeds and the stored record gets
`last_accessed = timestamp` and a saturating `access_count + 1`. -/
theorem update_project_access_contract :
    (∀ (s : JsonStorage) (path : String) (ts : Int),
      lookupProject s.data.projects path = none →
      updateProjectAccess s path ts = (s, .error (.Storage ("project not found: " ++ path)))) ∧
    (∀ (s : JsonStorage) (path : String) (ts : Int) (ex : ProjectRecord),
      lookupProject s.data.projects path = some ex →
      (updateProjectAccess s path ts).2 = .ok () ∧
      lookupProject (updateProjectAccess s path ts).1.data.projects path =
        some { ex with last_accessed := some ts,
                       access_count := i32SaturatingAddOne ex.access_count }) := by
  constructor
  · intro s path ts h
    simp [updateProjectAccess, h]
  · intro s path ts ex h
    refine ⟨by simp [updateProjectAccess, h], ?_⟩
    simp only [updateProjectAccess, h, saveToFile, if_pos]
    exact lookupProject_updateProject_self _ _ _ _ h

/-- C6 witness: on the one-record store holding path "a", the contract is
exercised both at the absent path "b" and at the present path "a". -/
theorem update_project_access_contract_witness :
    (updateProjectAccess
        { data := { version := 1,
                    projects := [("a", { path := "a", name := "a", last_accessed := none,
                                         access_count := 1, created_at := 0, layout := none })],
                    sessions := [] },
          dirty := false, disk := none, writes := 0 } "b" 7).2 =
      .error (.Storage "project not found: b") ∧
    lookupProject (updateProjectAccess
        { data := { version := 1,
                    projects := [("a", { path := "a", name := "a", last_accessed := none,
                                         access_count := 1, created_at := 0, layout := none })],
                    sessions := [] },
          dirty := false, disk := none, writes := 0 } "a" 7).1.data.projects "a" =
      some { path := "a", name := "a", last_accessed := some 7,
             access_count := 2, created_at := 0, layout := none } := by
  constructor
  · rw [(update_project_access_contract.1 _ "b" 7 (by decide))]
    rfl
  · have h := (update_project_access_contract.2
      { data := { version := 1,
                  projects := [("a", { path := "a", name := "a", last_accessed := none,
                                       access_count := 1, created_at := 0, layout := none })],
                  sessions := [] },
        dirty := false, disk := none, writes := 0 } "a" 7
      { path := "a", name := "a", last_accessed := none,
        access_count := 1, created_at := 0, layout := none } (by decide)).2
    rw [h]
    decide

/-- C9 counterexample: `add_projects_batch` with an empty input on a
clean, fully committed store leaves the dataset identical to the last
committed snapshot, yet still performs a physical disk write — the dirty
flag is set unconditionally by the mutating call, so an identical
consecutive no-op write is not elided as the claim states. -/
theorem noop_batch_write_not_elided :
    (addProjectsBatch
        { data := StorageData.default, dirty := false,
          disk := some StorageData.default, writes := 0 } []).1.data = StorageData.default ∧
    (addProjectsBatch
        { data := StorageData.default, dirty := false,
          disk := some StorageData.default, writes := 0 } []).1.writes = 1 := by
  decide

/-- C9 (amended): every mutating storage operation — add_project,
add_projects_batch, update_project_access (when it succeeds),
sync_sessions — is followed immediately by a commit that always performs
a disk write, because the operation sets the dirty flag unconditionally;
the dirty-flag elision applies only to a commit invoked with no
uncommitted mutation (such as the flush on teardown), which is a no-op. -/
theorem mutating_ops_commit_immediately :
    (∀ (s : JsonStorage) (r : ProjectRecord),
      (addProject s r).1.dirty = false ∧
      (addProject s r).1.disk = some (addProject s r).1.data ∧
      (addProject s r).1.writes = s.writes + 1) ∧
    (∀ (s : JsonStorage) (ps : List ProjectRecord),
      (addProjectsBatch s ps).1.dirty = false ∧
      (addProjectsBatch s ps).1.disk = some (addProjectsBatch s ps).1.data ∧
      (addProjectsBatch s ps).1.writes = s.writes + 1) ∧
    (∀ (s : JsonStorage) (names : List String),
      (syncSessions s names).dirty = false ∧
      (syncSessions s names).disk = some (syncSessions s names).data ∧
      (syncSessions s names).writes = s.writes + 1) ∧
    (∀ (s : JsonStorage) (path : String) (ts : Int),
      (updateProjectAccess s path ts).2 = .ok () →
      (updateProjectAccess s path ts).1.dirty = false ∧
      (updateProjectAccess s path ts).1.disk = some (updateProjectAccess s path ts).1.data ∧
      (updateProjectAccess s path ts).1.writes = s.writes + 1) ∧
    (∀ s : JsonStorage, s.dirty = false → saveToFile s = s) := by
  refine ⟨?_, ?_, ?_, ?_, ?_⟩
  · intro s r
    cases h : lookupProject s.data.projects r.path <;> simp [addProject, h, saveToFile]
  · intro s ps
    simp [addProjectsBatch, saveToFile]
  · intro s names
    simp [syncSessions, saveToFile]
  · intro s path ts hok
    cases h : lookupProject s.data.projects path with
    | none => simp [updateProjectAccess, h] at hok
    | some ex => simp [updateProjectAccess, h, saveToFile]
  · intro s h
    simp [saveToFile, h]

/-- C9 witness: the commit contract exercised on concrete inputs — a
batch add performs exactly one write, a successful access update performs
exactly one write, and a save on a clean store is the identity. -/
theorem mutating_ops_commit_immediately_witness :
    (addProjectsBatch
        { data := StorageData.default, dirty := false, disk := none, writes := 3 } []).1.writes = 4 ∧
    (updateProjectAccess
        { data := { version := 1,
                    projects := [("a", { path := "a", name := "a", last_accessed := none,
                                         access_count := 1, created_at := 0, layout := none })],
                    sessions := [] },
          dirty := false, disk := none, writes := 0 } "a" 7).1.writes = 1 ∧
    saveToFile { data := StorageData.default, dirty := false, disk := none, writes := 5 } =
      { data := StorageData.default, dirty := false, disk := none, writes := 5 } := by
  refine ⟨(mutating_ops_commit_immediately.2.1 _ []).2.2, ?_, ?_⟩
  · exact (mutating_ops_commit_immediately.2.2.2.1 _ "a" 7 (by rfl)).2.2
  · exact mutating_ops_commit_immediately.2.2.2.2 _ (by decide)

/-- C10: `add_project` on an already stored path overwrites the stored
record's name, last_accessed and access_count with the incoming values
(replacing access_count outright, unlike the batch merge's max), and the
set of stored paths is unchanged. -/
theorem add_project_existing_overwrites (s : JsonStorage) (r ex : ProjectRecord)
    (h : lookupProject s.data.projects r.path = some ex) :
    lookupProject (addProject s r).1.data.projects r.path =
      some { ex with name := r.name, last_accessed := r.last_accessed,
                     access_count := r.access_count } ∧
    (addProject s r).1.data.projects.map Prod.fst = s.data.projects.map Prod.fst := by
  constructor
  · simp only [addProject, h, saveToFile, if_pos]
    exact lookupProject_updateProject_self _ _ _ _ h
  · simp only [addProject, h, saveToFile, if_pos]
    exact updateProject_keys _ _ _

/-- C10 witness: overwriting the record stored at path "a" with fresh
name, timestamp and a smaller access count. -/
theorem add_project_existing_overwrites_witness :
    lookupProject (addProject
        { data := { version := 1,
                    projects := [("a", { path := "a", name := "old", last_accessed := some 1,
                                         access_count := 9, created_at := 0, layout := none })],
                    sessions := [] },
          dirty := false, disk := none, writes := 0 }
        { path := "a", name := "new", last_accessed := some 2,
          access_count := 3, created_at := 5, layout := none }).1.data.projects "a" =
      some { path := "a", name := "new", last_accessed := some 2,
             access_count := 3, created_at := 0, layout := none } := by
  have h := (add_project_existing_overwrites
    { data := { version := 1,
                projects := [("a", { path := "a", name := "old", last_accessed := some 1,
                                     access_count := 9, created_at := 0, layout := none })],
                sessions := [] },
      dirty := false, disk := none, writes := 0 }
    { path := "a", name := "new", last_accessed := some 2,
      access_count := 3, created_at := 5, layout := none }
    { path := "a", name := "old", last_accessed := some 1,
      access_count := 9, created_at := 0, layout := none } (by decide)).1
  rw [h]

/-! ### Claim theorems: frecency decay (C4) -/

/-- C4 counterexample: for a record with `last_accessed = None` — which
the claim explicitly covers, treating it as age 0 — the score is the raw
access count at every timestamp, so the strict decrease
`score(record, t2) < score(record, t1)` fails at `t1 = 0 < t2 = 1`. -/
theorem frecency_decay_fails_for_never_accessed :
    ((0 : Int) < 1) ∧
    ¬ (calculateScore
        { path := "/p", name := "p", last_accessed := none,
          access_count := 5, created_at := 0, layout := none } 1 <
       calculateScore
        { path := "/p", name := "p", last_accessed := none,
          access_count := 5, created_at := 0, layout := none } 0) := by
  constructor
  · decide
  · simp [calculateScore]

/-- C4 (amended): with access_count held fixed and positive and an actual
last-access time `la`, the frecency score strictly decreases between any
timestamps `la ≤ t1 < t2`; a record with `last_accessed = None` instead
has a constant score (its raw access count) at all timestamps. -/
theorem frecency_monotonic_decay :
    (∀ (p : ProjectRecord) (la t1 t2 : Int),
      p.last_accessed = some la → 0 < p.access_count → la ≤ t1 → t1 < t2 →
      calculateScore p t2 < calculateScore p t1) ∧
    (∀ (p : ProjectRecord) (t1 t2 : Int),
      p.last_accessed = none → calculateScore p t1 = calculateScore p t2) := by
  constructor
  · intro p la t1 t2 hla hcount h1 h2
    have hmax1 : max (t1 - la) 0 = t1 - la := max_eq_left (by omega)
    have hmax2 : max (t2 - la) 0 = t2 - la := max_eq_left (by omega)
    simp only [calculateScore, hla, hmax1, hmax2]
    have hcpos : (0 : ℝ) < (p.access_count : ℝ) := by exact_mod_cast hcount
    refine mul_lt_mul_of_pos_left (Real.exp_lt_exp.mpr ?_) hcpos
    have hcast : ((t1 - la : Int) : ℝ) < ((t2 - la : Int) : ℝ) := by
      exact_mod_cast (by omega : (t1 - la : Int) < t2 - la)
    linarith
  · intro p t1 t2 h
    simp [calculateScore, h]

/-- C4 witness: a record last accessed at time 0 with access count 5
scores strictly less at time 20 than at time 10. -/
theorem frecency_monotonic_decay_witness :
    calculateScore
      { path := "/p", name := "p", last_accessed := some 0,
        access_count := 5, created_at := 0, layout := none } 20 <
    calculateScore
      { path := "/p", name := "p", last_accessed := some 0,
        access_count := 5, created_at := 0, layout := none } 10 :=
  frecency_monotonic_decay.1 _ 0 10 20 rfl (by decide) (by decide) (by decide)

/-! ### Helper lemmas: selection invariant (C2) -/

/-- Replacing only the selection index keeps the invariant whenever the
new index is in bounds for the unchanged filtered list. -/
lemma selInv_set_sel (st : AppState) (n : Nat)
    (hn : if st.filtered_projects.length = 0 then n = 0
          else n < st.filtered_projects.length) :
    selectionInvariant { st with selected_index := n } := hn

/-- A non-empty list has non-zero length. -/
lemma length_ne_zero_of_not_isEmpty (l : List Project) (h : ¬ l.isEmpty = true) :
    l.length ≠ 0 := by
  cases l with
  | nil => simp at h
  | cons a tl => simp

/-- The clamp written at the end of `apply_search_filter` always lands in
bounds, for any filtered list and any prior index. -/
lemma clamp_inv (F : List Project) (old : Nat) :
    if F.length = 0 then (if F.isEmpty then 0 else min old (F.length - 1)) = 0
    else (if F.isEmpty then 0 else min old (F.length - 1)) < F.length := by
  cases F with
  | nil => simp
  | cons a l =>
      simp only [List.length_cons, List.isEmpty_cons, Nat.succ_ne_zero, if_false,
        Bool.false_eq_true, Nat.add_sub_cancel]
      omega

/-- `apply_search_filter` re-establishes the selection invariant
unconditionally. -/
lemma applySearchFilter_inv (fm : String → String → Bool) (st : AppState) :
    selectionInvariant (applySearchFilter fm st) := by
  simp only [applySearchFilter, selectionInvariant]
  exact clamp_inv _ _

/-- `move_selection_down` preserves the selection invariant. -/
lemma moveSelectionDown_inv (st : AppState) (h : selectionInvariant st) :
    selectionInvariant (moveSelectionDown st) := by
  unfold moveSelectionDown
  split
  · exact h
  · next hf =>
      have hlen := length_ne_zero_of_not_isEmpty _ hf
      refine selInv_set_sel st _ ?_
      rw [if_neg hlen]
      exact Nat.mod_lt _ (Nat.pos_of_ne_zero hlen)

/-- `move_selection_up` preserves the selection invariant. -/
lemma moveSelectionUp_inv (st : AppState) (h : selectionInvariant st) :
    selectionInvariant (moveSelectionUp st) := by
  have h' : if st.filtered_projects.length = 0 then st.selected_index = 0
      else st.selected_index < st.filtered_projects.length := h
  unfold moveSelectionUp
  split
  · exact h
  · next hf =>
      have hlen := length_ne_zero_of_not_isEmpty _ hf
      rw [if_neg hlen] at h'
      split
      · refine selInv_set_sel st _ ?_
        rw [if_neg hlen]
        omega
      · refine selInv_set_sel st _ ?_
        rw [if_neg hlen]
        omega

/-! ### Claim theorem: selection invariant through the handler (C2) -/

/-- C2: the initial state satisfies the selection invariant
(`selected_index < filtered_projects.len()` when the filtered list is
non-empty, `selected_index = 0` when it is empty), and every event
processed by `handle_event` preserves it — in particular
`apply_search_filter` re-clamps to `min(old, new_len - 1)` or 0 and the
wraparound moves stay in bounds — for every fuzzy matcher. -/
theorem handler_preserves_selection_invariant :
    (∀ ps : List Project, selectionInvariant (initialState ps)) ∧
    (∀ (fm : String → String → Bool) (st : AppState) (e : Event),
      selectionInvariant st → selectionInvariant (handleEvent fm st e).1) := by
  constructor
  · intro ps
    simp [initialState, selectionInvariant]
  · intro fm st e h
    cases e with
    | KeyDown => exact moveSelectionDown_inv st h
    | KeyUp => exact moveSelectionUp_inv st h
    | CloseFocus => exact h
    | SelectProject =>
        simp only [handleEvent]
        cases hsel : selectedProject st with
        | none =>
            cases him : st.input_mode with
            | Normal => exact h
            | Search f => exact applySearchFilter_inv fm _
        | some p =>
            by_cases hmem : p.name ∈ st.active_sessions <;> simp [hmem] <;> exact h
    | SearchMode => exact h
    | FocusSearchBar => exact h
    | FocusResults =>
        simp only [handleEvent]
        split
        · exact applySearchFilter_inv fm _
        · exact h
    | ExitSearch => exact applySearchFilter_inv fm _
    | CharKey c =>
        simp only [handleEvent]
        cases st.input_mode with
        | Normal => exact h
        | Search f => exact applySearchFilter_inv fm _
    | Backspace =>
        simp only [handleEvent]
        cases st.input_mode with
        | Normal => exact h
        | Search f => exact applySearchFilter_inv fm _
    | Escape => exact applySearchFilter_inv fm _
    | ShowProjects => exact applySearchFilter_inv fm _
    | ShowSessions => exact applySearchFilter_inv fm _
    | KillSession =>
        simp only [handleEvent]
        split
        · exact h
        · split
          · exact h
          · exact h
    | SessionUpdate act cur =>
        simp only [handleEvent]
        split
        · exact applySearchFilter_inv fm _
        · exact h
    | ProjectsScanned dirs =>
        simp only [handleEvent]
        split
        · exact h
        · exact h
    | ScanFailed msg => exact h
    | PermissionsResult => exact h
    | WorkerResponseEvt r =>
        simp only [handleEvent]
        cases r with
        | ProjectsLoaded ps =>
            by_cases hp : st.projects = ps
            · simp only [hp, if_pos rfl]
              exact h
            · simp only [if_neg hp]
              split
              · exact applySearchFilter_inv fm _
              · exact applySearchFilter_inv fm _
        | FrecencyUpdated p => exact h
        | SessionsSynced c => exact h
        | ProjectsBatchAdded c ps =>
            by_cases hp : st.projects = ps
            · simp only [hp, if_pos rfl]
              exact h
            · simp only [if_neg hp]
              split
              · exact applySearchFilter_inv fm _
              · exact applySearchFilter_inv fm _
        | LayoutUpdated p => exact h
        | Error msg => exact h
    | UpdateProjectLayout p l => exact h

/-- C2 witness: starting from the initial state (which the theorem itself
shows satisfies the invariant), a wraparound move keeps the invariant. -/
theorem handler_preserves_selection_invariant_witness :
    selectionInvariant ((handleEvent (fun _ _ => true) (initialState []) Event.KeyDown).1) :=
  handler_preserves_selection_invariant.2 (fun _ _ => true) (initialState []) Event.KeyDown
    (handler_preserves_selection_invariant.1 [])

/-! ### Claim theorems: view windowing (C5) -/

/-- Core windowing bounds: with at least one available row, a list at
least as long as the window, and an in-bounds selection, the computed
window spans exactly `available_rows` rows, contains the selection, and
ends no later than the list's end. -/
lemma computeWindow_bounds (R sel N : Nat) (hR : 1 ≤ R) (hRN : R ≤ N) (hsel : sel < N) :
    (computeWindow R sel N).2 - (computeWindow R sel N).1 = R ∧
    (computeWindow R sel N).1 ≤ sel ∧ sel < (computeWindow R sel N).2 ∧
    (computeWindow R sel N).2 ≤ N := by
  simp only [computeWindow]
  split
  · omega
  · omega

/-- C5 counterexample: in Normal mode a 6-row terminal yields 0 available
rows; with one filtered project (so the list length 1 is at least the
available rows) the computed window is empty and `selected_index = 0`
does not lie within `[visible_start, visible_end)` — the view model shows
no rows at all. -/
theorem window_zero_rows_counterexample :
    calculateAvailableRows .Normal 6 = 0 ∧
    ¬ ((computeWindow (calculateAvailableRows .Normal 6) 0 1).1 ≤ 0 ∧
       0 < (computeWindow (calculateAvailableRows .Normal 6) 0 1).2) ∧
    (computeViewmodel
      { projects := [{ id := none, path := "/a", name := "a", last_accessed := 0,
                       created_at := 0, layout := none }]
        filtered_projects := [{ id := none, path := "/a", name := "a", last_accessed := 0,
                                created_at := 0, layout := none }]
        selected_index := 0
        input_mode := .Normal
        search_query := ""
        view_mode := .Sessions
        active_sessions := ∅
        current_session := none } 6).display_items = [] := by
  refine ⟨rfl, by decide, ?_⟩
  rfl

/-- C5 (amended): whenever the available rows `R` (terminal rows minus
the input mode's fixed chrome) is at least 1, the filtered list length
`N` is at least `R`, and `selected_index` is a valid index (`< N`, the
state invariant), the window computed by `compute_viewmodel` — centered
at `selected_index - R/2`, end clamped to `N`, then shifted back to fill
`R` rows when short — has exactly `R` rows with
`selected_index ∈ [visible_start, visible_end)`; accordingly the view
model renders exactly `R` display items and places the selection at
on-screen row `selected_index - visible_start < R`. -/
theorem viewmodel_window_exact :
    (∀ (input_mode : InputMode) (total_rows sel N : Nat),
      1 ≤ calculateAvailableRows input_mode total_rows →
      calculateAvailableRows input_mode total_rows ≤ N → sel < N →
      (computeWindow (calculateAvailableRows input_mode total_rows) sel N).2 -
        (computeWindow (calculateAvailableRows input_mode total_rows) sel N).1 =
        calculateAvailableRows input_mode total_rows ∧
      (computeWindow (calculateAvailableRows input_mode total_rows) sel N).1 ≤ sel ∧
      sel < (computeWindow (calculateAvailableRows input_mode total_rows) sel N).2) ∧
    (∀ (st : AppState) (rows : Nat),
      1 ≤ calculateAvailableRows st.input_mode rows →
      calculateAvailableRows st.input_mode rows ≤ st.filtered_projects.length →
      st.selected_index < st.filtered_projects.length →
      st.projects.isEmpty = false →
      (computeViewmodel st rows).display_items.length = calculateAvailableRows st.input_mode rows ∧
      (computeViewmodel st rows).selected_index < calculateAvailableRows st.input_mode rows) := by
  constructor
  · intro im rows sel N hR hRN hsel
    obtain ⟨h1, h2, h3, _⟩ := computeWindow_bounds _ sel N hR hRN hsel
    exact ⟨h1, h2, h3⟩
  · intro st rows hR hRN hsel hne
    obtain ⟨h1, h2, h3, h4⟩ :=
      computeWindow_bounds (calculateAvailableRows st.input_mode rows)
        st.selected_index st.filtered_projects.length hR hRN hsel
    have hfne : st.filtered_projects.isEmpty = false := by
      cases hF : st.filtered_projects
      · rw [hF] at hsel; simp at hsel
      · rfl
    simp only [computeViewmodel, hne, hfne, Bool.or_self, Bool.false_eq_true, if_false,
      List.length_map, List.enum_length, List.length_take, List.length_drop]
    constructor
    · omega
    · omega

/-- C5 witness: Normal mode on a 10-row terminal gives 4 available rows;
with 5 filtered projects and the selection at index 2 the window spans
exactly 4 rows and the view model renders exactly 4 display items. -/
theorem viewmodel_window_exact_witness :
    ((computeWindow (calculateAvailableRows .Normal 10) 2 5).2 -
      (computeWindow (calculateAvailableRows .Normal 10) 2 5).1 =
      calculateAvailableRows .Normal 10) ∧
    (computeViewmodel
      { projects := List.replicate 5 { id := none, path := "/a", name := "a", last_accessed := 0,
                                       created_at := 0, layout := none }
        filtered_projects := List.replicate 5 { id := none, path := "/a", name := "a",
                                                last_accessed := 0, created_at := 0, layout := none }
        selected_index := 2
        input_mode := .Normal
        search_query := ""
        view_mode := .Sessions
        active_sessions := ∅
        current_session := none } 10).display_items.length = 4 :=
  ⟨(viewmodel_window_exact.1 .Normal 10 2 5 (by decide) (by decide) (by decide)).1,
   (viewmodel_window_exact.2
      { projects := List.replicate 5 { id := none, path := "/a", name := "a", last_accessed := 0,
                                       created_at := 0, layout := none }
        filtered_projects := List.replicate 5 { id := none, path := "/a", name := "a",
                                                last_accessed := 0, created_at := 0, layout := none }
        selected_index := 2
        input_mode := .Normal
        search_query := ""
        view_mode := .Sessions
        active_sessions := ∅
        current_session := none } 10 (by decide) (by decide) (by decide) (by rfl)).1⟩

/-! ### Claim theorems: session update deduplication (C8) -/

/-- Two finsets with empty differences in both directions are equal, so a
set that differs from another yields a positive difference cardinality on
at least one side. -/
lemma finset_ne_pos_sdiff (a b : Finset String) (h : a ≠ b) :
    0 < (a \ b).card ∨ 0 < (b \ a).card := by
  by_contra hc
  push_neg at hc
  obtain ⟨h1, h2⟩ := hc
  have e1 : a \ b = ∅ := Finset.card_eq_zero.mp (Nat.le_zero.mp h1)
  have e2 : b \ a = ∅ := Finset.card_eq_zero.mp (Nat.le_zero.mp h2)
  exact h (Finset.Subset.antisymm
    (Finset.sdiff_eq_empty_iff_subset.mp e1)
    (Finset.sdiff_eq_empty_iff_subset.mp e2))

/-- C8: a `SessionUpdate` whose active set and current session both equal
the state's is a complete no-op — unchanged state, no actions,
render = false; any other `SessionUpdate` stores the new set and current
session, refilters, emits exactly one `PostToWorker(SyncSessions)` with
the new active set, and returns render = true. -/
theorem session_update_change_detection :
    (∀ (fm : String → String → Bool) (st : AppState) (act : Finset String)
        (cur : Option String),
      act = st.active_sessions → cur = st.current_session →
      handleEvent fm st (.SessionUpdate act cur) = (st, false, [])) ∧
    (∀ (fm : String → String → Bool) (st : AppState) (act : Finset String)
        (cur : Option String),
      act ≠ st.active_sessions ∨ cur ≠ st.current_session →
      handleEvent fm st (.SessionUpdate act cur) =
        (applySearchFilter fm { st with active_sessions := act, current_session := cur },
         true, [.PostToWorker (.SyncSessions act)])) := by
  constructor
  · intro fm st act cur hact hcur
    subst hact hcur
    simp [handleEvent]
  · intro fm st act cur h
    have hcond : 0 < (act \ st.active_sessions).card ∨
        0 < (st.active_sessions \ act).card ∨ st.current_session ≠ cur := by
      rcases h with h | h
      · rcases finset_ne_pos_sdiff act st.active_sessions h with h' | h'
        · exact Or.inl h'
        · exact Or.inr (Or.inl h')
      · exact Or.inr (Or.inr (Ne.symm h))
    simp only [handleEvent, if_pos hcond]

/-- C8 witness: on the initial state, an identical update (empty set, no
current session) is a no-op, while adding a session name "s" stores it,
emits the sync action and renders. -/
theorem session_update_change_detection_witness :
    handleEvent (fun _ _ => true) (initialState []) (.SessionUpdate ∅ none) =
      (initialState [], false, []) ∧
    handleEvent (fun _ _ => true) (initialState []) (.SessionUpdate {"s"} none) =
      (applySearchFilter (fun _ _ => true)
        { initialState [] with active_sessions := {"s"}, current_session := none },
       true, [.PostToWorker (.SyncSessions {"s"})]) :=
  ⟨session_update_change_detection.1 (fun _ _ => true) (initialState []) ∅ none rfl rfl,
   session_update_change_detection.2 (fun _ _ => true) (initialState []) {"s"} none
     (Or.inl (by decide))⟩

/-! ### Claim theorems: scan deduplication keeps first occurrences (C7) -/

/-- Membership in the dedup fold, generalized over the accumulator: an
entry is in the result exactly when it was already accumulated, or no
accumulated entry has its name and it is the first entry of the remaining
input with its name. -/
lemma mem_dedup_foldl (l : List (String × String)) :
    ∀ (acc : List (String × String)) (y : String × String),
      (y ∈ l.foldl (fun acc e =>
          if acc.any (fun e2 => e2.2 == e.2) then acc else acc ++ [e]) acc ↔
        y ∈ acc ∨ ((∀ a ∈ acc, a.2 ≠ y.2) ∧
          l.find? (fun e => e.2 == y.2) = some y)) := by
  induction l with
  | nil => intro acc y; simp
  | cons e rest ih =>
      intro acc y
      simp only [List.foldl_cons]
      by_cases hseen : (acc.any (fun e2 => e2.2 == e.2)) = true
      · rw [if_pos hseen, ih]
        rw [List.any_eq_true] at hseen
        obtain ⟨a, ha, hae⟩ := hseen
        rw [beq_iff_eq] at hae
        by_cases hey : e.2 = y.2
        · constructor
          · rintro (hy | ⟨hfresh, _⟩)
            · exact Or.inl hy
            · exact absurd (hae.trans hey) (hfresh a ha)
          · rintro (hy | ⟨hfresh, _⟩)
            · exact Or.inl hy
            · exact absurd (hae.trans hey) (hfresh a ha)
        · rw [List.find?_cons_of_neg _ (by simpa using hey)]
      · rw [if_neg hseen, ih]
        have hfreshe : ∀ a ∈ acc, a.2 ≠ e.2 := by
          intro a ha hc
          exact hseen (List.any_eq_true.mpr ⟨a, ha, by simpa using hc⟩)
        by_cases hey : e.2 = y.2
        · rw [List.find?_cons_of_pos _ (by simpa using hey)]
          constructor
          · rintro (hy | ⟨hfresh', _⟩)
            · rw [List.mem_append, List.mem_singleton] at hy
              rcases hy with hy | rfl
              · exact Or.inl hy
              · exact Or.inr ⟨fun a ha => hey ▸ hfreshe a ha, rfl⟩
            · exact absurd hey (hfresh' e (by simp))
          · rintro (hy | ⟨hfresh, heq⟩)
            · exact Or.inl (List.mem_append_left _ hy)
            · injection heq with he
              subst he
              exact Or.inl (List.mem_append_right _ (by simp))
        · rw [List.find?_cons_of_neg _ (by simpa using hey)]
          constructor
          · rintro (hy | ⟨hfresh', hf⟩)
            · rw [List.mem_append, List.mem_singleton] at hy
              rcases hy with hy | rfl
              · exact Or.inl hy
              · exact absurd rfl hey
            · exact Or.inr ⟨fun a ha => hfresh' a (List.mem_append_left _ ha), hf⟩
          · rintro (hy | ⟨hfresh, hf⟩)
            · exact Or.inl (List.mem_append_left _ hy)
            · refine Or.inr ⟨?_, hf⟩
              intro a ha
              rw [List.mem_append, List.mem_singleton] at ha
              rcases ha with ha | rfl
              · exact hfresh a ha
              · exact hey

/-- C7: the `ProjectsScanned` handler leaves the state untouched and,
when the normalized scan results are non-empty, emits exactly one
`AddProjectsBatch` action carrying the name-deduplicated list; and that
deduplication keeps exactly the first entry (in input order) for each
project name: an entry survives iff it is the first input entry bearing
its name, so any later entry with a colliding name — whatever its path —
is discarded. -/
theorem scanned_dedup_keeps_first :
    (∀ (fm : String → String → Bool) (st : AppState) (dirs : List String),
      handleEvent fm st (.ProjectsScanned dirs) =
        (st, false,
          if (scannedProjects dirs).isEmpty then []
          else [.PostToWorker (.AddProjectsBatch (dedupFirstByName (scannedProjects dirs)))])) ∧
    (∀ (l : List (String × String)) (y : String × String),
      y ∈ dedupFirstByName l ↔ l.find? (fun e => e.2 == y.2) = some y) := by
  constructor
  · intro fm st dirs
    by_cases h : (scannedProjects dirs).isEmpty
    · simp [handleEvent, h]
    · simp only [handleEvent]
      rw [if_neg h, if_neg h]
  · intro l y
    rw [dedupFirstByName, mem_dedup_foldl l [] y]
    simp
